import Mathlib

/-!
Verification of the goftp FTP client (package ftp: ftp.go and the
ISO-8859-15 charset helper file) against its natural-language
specification.

Modelling conventions (shallow embedding):
* Go strings are modelled as `List Char`; where byte-level behaviour
  matters (the charset transcoder) strings are modelled as `List Nat`
  of code units (bytes on the ISO-8859-15 side, runes on the UTF-8
  side), with truncating conversions written explicitly as `% 256`.
* Fallible Go functions return `Option`/`Except`; a Go runtime panic
  (out-of-range index or slice) is modelled as a distinct error value.
* Stateful code on the control/data connections is modelled by explicit
  state passing over a `World` record holding the outcome queues of the
  network primitives and an event log.
-/

namespace Goftp

/-! ### Generic Go string helpers (strings / strconv packages) -/

/-- Character of a decimal digit `n < 10` (models strconv's digit output). -/
def digitChar (n : Nat) : Char := Char.ofNat (48 + n)

/-- Is `c` an ASCII decimal digit? -/
def isDigitCh (c : Char) : Bool := 48 ≤ c.toNat ∧ c.toNat ≤ 57

/-- Numeric value of an ASCII digit character. -/
def digitVal (c : Char) : Nat := c.toNat - 48

/-- Value of a nonempty all-digit string; `none` otherwise.
Accumulator form mirrors strconv's digit loop. -/
def digitsValAux (acc : Nat) : List Char → Option Nat
  | [] => some acc
  | c :: cs => if isDigitCh c then digitsValAux (acc * 10 + digitVal c) cs else none

/-- `strconv` digit-run parse: nonempty, all digits. -/
def digitsVal : List Char → Option Nat
  | [] => none
  | s => digitsValAux 0 s

/-- `strconv.Atoi`: optional sign then a nonempty digit run, nothing else.
(The 64-bit range error of the real function is not modelled; all inputs
of interest are small.) -/
def goAtoi : List Char → Option Int
  | [] => none
  | '+' :: rest => (digitsVal rest).map (fun n => (n : Int))
  | '-' :: rest => (digitsVal rest).map (fun n => -(n : Int))
  | s => (digitsVal s).map (fun n => (n : Int))

/-- `strconv.ParseUint(s, 10, 0)`: nonempty digit run, no sign allowed.
(The range error of the real function is not modelled.) -/
def goParseUint (s : List Char) : Option Nat := digitsVal s

/-- Fuelled digit emission for `strconv.Itoa` (fuel keeps it structural). -/
def goItoaAux : Nat → Nat → List Char
  | 0, _ => []
  | fuel + 1, n =>
    if n < 10 then [digitChar n]
    else goItoaAux fuel (n / 10) ++ [digitChar (n % 10)]

/-- `strconv.Itoa` on naturals (the code only converts year numbers). -/
def goItoa (n : Nat) : List Char := goItoaAux (n + 1) n

/-- One splitting step of `strings.Split` with a one-character separator. -/
def goSplitAux (sep : Char) : List Char → List Char → List (List Char)
  | [], acc => [acc.reverse]
  | c :: cs, acc =>
    if c = sep then acc.reverse :: goSplitAux sep cs []
    else goSplitAux sep cs (c :: acc)

/-- `strings.Split(s, sep)` for a single-character separator: always
returns at least one (possibly empty) field. -/
def goSplit (sep : Char) (s : List Char) : List (List Char) := goSplitAux sep s []

/-- Go's `unicode.IsSpace` restricted to the ASCII whitespace relevant here. -/
def isSpaceCh (c : Char) : Bool :=
  c = ' ' ∨ c = '\t' ∨ c = '\n' ∨ c = '\r' ∨ c = Char.ofNat 11 ∨ c = Char.ofNat 12

/-- Splitting step of `strings.Fields`: whitespace-separated, empties dropped. -/
def goFieldsAux : List Char → List Char → List (List Char)
  | [], acc => if acc = [] then [] else [acc.reverse]
  | c :: cs, acc =>
    if isSpaceCh c then
      (if acc = [] then goFieldsAux cs [] else acc.reverse :: goFieldsAux cs [])
    else goFieldsAux cs (c :: acc)

/-- `strings.Fields(s)`: the maximal runs of non-whitespace characters. -/
def goFields (s : List Char) : List (List Char) := goFieldsAux s []

/-- `strings.Index(s, c)` for a one-character pattern: first index or none. -/
def goIndex : List Char → Char → Option Nat
  | [], _ => none
  | c :: cs, t => if c = t then some 0 else (goIndex cs t).map (· + 1)

/-- `strings.LastIndex(s, c)` for a one-character pattern. -/
def goLastIndex (s : List Char) (t : Char) : Option Nat :=
  (goIndex s.reverse t).map (fun i => s.length - 1 - i)

/-- The slice `s[a:b]` of a Go string (callers check `a ≤ b ≤ len s`). -/
def goSlice (s : List Char) (a b : Nat) : List Char := (s.take b).drop a

/-- Characters trimmed by the MLSx line cleanup (`strings.Trim(line, " \r\n\t")`). -/
def isTrimCh (c : Char) : Bool := c = ' ' ∨ c = '\r' ∨ c = '\n' ∨ c = '\t'

/-- `strings.Trim(s, " \r\n\t")`: strip those characters from both ends. -/
def goTrim (s : List Char) : List Char :=
  ((s.dropWhile isTrimCh).reverse.dropWhile isTrimCh).reverse

/-- ASCII lower-casing of one character (Go's case-insensitive name match). -/
def asciiLower (c : Char) : Char :=
  if 65 ≤ c.toNat ∧ c.toNat ≤ 90 then Char.ofNat (c.toNat + 32) else c

/-- `strings.ToLower` restricted to ASCII (fact keys are ASCII). -/
def goToLower (s : List Char) : List Char := s.map asciiLower

/-! ### The ISO-8859-15 transcoder (charset helper file)

Strings are code-unit sequences: on the ISO-8859-15 side a `List Nat` of
bytes, on the UTF-8 side a `List Nat` of runes.  Go's `byte(r)` narrowing
conversion is the explicit `% 256`. -/

/-- Rune produced for one ISO-8859-15 byte (the switch in `ISO8859_15ToUTF8`). -/
def iso2utfByte (r : Nat) : Nat :=
  if r = 0xA4 then 0x20AC        -- EURO SIGN
  else if r = 0xA6 then 0x0160   -- LATIN CAPITAL LETTER S WITH CARON
  else if r = 0xA8 then 0x0161   -- LATIN SMALL LETTER S WITH CARON
  else if r = 0xB4 then 0x017D   -- LATIN CAPITAL LETTER Z WITH CARON
  else if r = 0xB8 then 0x017E   -- LATIN SMALL LETTER Z WITH CARON
  else if r = 0xBC then 0x0152   -- LATIN CAPITAL LIGATURE OE
  else if r = 0xBD then 0x0153   -- LATIN SMALL LIGATURE OE
  else if r = 0xBE then 0x0178   -- LATIN CAPITAL LETTER Y WITH DIAERESIS
  else r

/-- `ISO8859_15ToUTF8`: byte-wise translation of the eight remapped
code points, everything else passes through. -/
def ISO8859_15ToUTF8 (s : List Nat) : List Nat := s.map iso2utfByte

/-- Byte produced for one rune (the switch in `UTF8ToISO8859_15`);
the default branch is Go's truncating `byte(r)`. -/
def utf2isoRune (r : Nat) : Nat :=
  if r = 0x20AC then 0xA4
  else if r = 0x0160 then 0xA6
  else if r = 0x0161 then 0xA8
  else if r = 0x017D then 0xB4
  else if r = 0x017E then 0xB8
  else if r = 0x0152 then 0xBC
  else if r = 0x0153 then 0xBD
  else if r = 0x0178 then 0xBE
  else r % 256

/-- `UTF8ToISO8859_15`: rune-wise translation into single bytes. -/
def UTF8ToISO8859_15 (c : List Nat) : List Nat := c.map utf2isoRune

/-! ### ServerConn configuration and the encoding gates -/

/-- The pure configuration part of `ServerConn`: the feature map
populated by `feat` plus the two behaviour flags.  (The socket part of
`ServerConn` is modelled separately by `World`.) -/
structure ConnCfg where
  features : List (List Char × List Char)
  translateEncoding : Bool
  listDotDirs : Bool
  deriving DecidableEq

/-- Membership test `_, ok := c.features[name]`. -/
def hasFeature (c : ConnCfg) (k : List Char) : Bool :=
  c.features.any (fun p => p.1 = k)

/-- The feature key checked by the encoding gates. -/
def utf8Key : List Char := "UTF8".toList

/-- `toServerEncoding` on code-unit strings: translate only when the
server lacks the UTF8 feature and translation is enabled. -/
def toServerEncoding (c : ConnCfg) (s : List Nat) : List Nat :=
  if ¬hasFeature c utf8Key ∧ c.translateEncoding then UTF8ToISO8859_15 s else s

/-- `fromServerEncoding` on code-unit strings. -/
def fromServerEncoding (c : ConnCfg) (s : List Nat) : List Nat :=
  if ¬hasFeature c utf8Key ∧ c.translateEncoding then ISO8859_15ToUTF8 s else s

/-- `fromServerEncoding` as used by the listing parsers on `List Char`
names: the character-level view of `ISO8859_15ToUTF8`. -/
def fromServerEncodingStr (c : ConnCfg) (s : List Char) : List Char :=
  if ¬hasFeature c utf8Key ∧ c.translateEncoding then
    s.map (fun ch => Char.ofNat (iso2utfByte ch.toNat))
  else s

/-- The eight byte values the ISO-8859-15 table remaps. -/
def remappedBytes : List Nat := [0xA4, 0xA6, 0xA8, 0xB4, 0xB8, 0xBC, 0xBD, 0xBE]

/-- The eight runes the ISO-8859-15 table represents at those bytes. -/
def remappedRunes : List Nat :=
  [0x20AC, 0x0160, 0x0161, 0x017D, 0x017E, 0x0152, 0x0153, 0x0178]

/-- The character repertoire of ISO-8859-15 as seen by the transcoder:
8-bit code points other than the eight replaced ones, plus the eight
replacement runes. -/
def iso15Mapped (r : Nat) : Prop :=
  (r < 256 ∧ r ∉ remappedBytes) ∨ r ∈ remappedRunes

instance (r : Nat) : Decidable (iso15Mapped r) := by
  unfold iso15Mapped; infer_instance

/-- Pass-through of one code point outside the eight remapped positions. -/
theorem passthrough_point (r : Nat) (hlt : r < 256) (h : r ∉ remappedBytes) :
    utf2isoRune r = r ∧ iso2utfByte r = r := by
  simp only [remappedBytes, List.mem_cons, List.not_mem_nil, or_false] at h
  push_neg at h
  obtain ⟨h1, h2, h3, h4, h5, h6, h7, h8⟩ := h
  constructor
  · unfold utf2isoRune
    rw [if_neg (show ¬(r = 0x20AC) by omega), if_neg (show ¬(r = 0x0160) by omega),
      if_neg (show ¬(r = 0x0161) by omega), if_neg (show ¬(r = 0x017D) by omega),
      if_neg (show ¬(r = 0x017E) by omega), if_neg (show ¬(r = 0x0152) by omega),
      if_neg (show ¬(r = 0x0153) by omega), if_neg (show ¬(r = 0x0178) by omega),
      Nat.mod_eq_of_lt hlt]
  · unfold iso2utfByte
    rw [if_neg h1, if_neg h2, if_neg h3, if_neg h4, if_neg h5, if_neg h6,
      if_neg h7, if_neg h8]

/-- Round trip of one code point through the two tables. -/
theorem utf2iso_iso2utf (r : Nat) (h : iso15Mapped r) :
    iso2utfByte (utf2isoRune r) = r := by
  rcases h with ⟨hlt, hnot⟩ | hmem
  · obtain ⟨e1, e2⟩ := passthrough_point r hlt hnot
    rw [e1, e2]
  · simp only [remappedRunes, List.mem_cons, List.not_mem_nil, or_false] at hmem
    rcases hmem with rfl | rfl | rfl | rfl | rfl | rfl | rfl | rfl <;> decide

/-- Round trip of a whole string through the two table maps. -/
theorem tables_round_trip (s : List Nat) (h : ∀ r ∈ s, iso15Mapped r) :
    ISO8859_15ToUTF8 (UTF8ToISO8859_15 s) = s := by
  unfold ISO8859_15ToUTF8 UTF8ToISO8859_15
  induction s with
  | nil => rfl
  | cons a t ih =>
    simp only [List.map_cons, List.cons.injEq]
    exact ⟨utf2iso_iso2utf a (h a (List.mem_cons_self a t)),
      ih (fun r hr => h r (List.mem_cons_of_mem a hr))⟩

/-- C7: with the UTF8 feature absent and translation enabled,
`toServerEncoding` followed by `fromServerEncoding` (i.e.
`UTF8ToISO8859_15` then `ISO8859_15ToUTF8`) reproduces every string
whose code points lie in the ISO-8859-15 mapped repertoire, and any
code point below 256 that is not one of the eight remapped byte
positions passes through each direction unchanged. -/
theorem encoding_round_trip (c : ConnCfg) (s : List Nat)
    (hutf8 : hasFeature c utf8Key = false)
    (htr : c.translateEncoding = true)
    (hmapped : ∀ r ∈ s, iso15Mapped r) :
    fromServerEncoding c (toServerEncoding c s) = s ∧
    (∀ r < 256, r ∉ remappedBytes → utf2isoRune r = r ∧ iso2utfByte r = r) := by
  refine ⟨?_, fun r hlt hnot => passthrough_point r hlt hnot⟩
  unfold fromServerEncoding toServerEncoding
  rw [if_pos (by simp [hutf8, htr]), if_pos (by simp [hutf8, htr])]
  exact tables_round_trip s hmapped

/-- A sample configuration with no features and translation enabled. -/
def plainTranslatingCfg : ConnCfg :=
  { features := [], translateEncoding := true, listDotDirs := false }

/-- A sample name containing the euro sign, a caron letter, an accented
Latin-1 letter and ASCII. -/
def c7SampleName : List Nat := [0x20AC, 0x0161, 0xE9, 0x61, 0x2E, 0x74, 0x78, 0x74]

/-- C7 witness: the round-trip theorem applied at the sample
configuration and name. -/
theorem encoding_round_trip_witness :
    fromServerEncoding plainTranslatingCfg
        (toServerEncoding plainTranslatingCfg c7SampleName) = c7SampleName ∧
    (∀ r < 256, r ∉ remappedBytes → utf2isoRune r = r ∧ iso2utfByte r = r) :=
  encoding_round_trip plainTranslatingCfg c7SampleName (by decide) (by decide)
    (by decide)

/-! ### PASV reply parsing

`pasv` issues the PASV command and parses the reply line; the command
exchange itself is handled by `cmd`/`World` below, so the parsing step
is modelled as a pure function of the reply text.  A Go runtime panic
(slice bounds or index out of range) is the `indexOutOfRange` outcome. -/

/-- Outcome of the PASV reply parsing step. -/
inductive PasvResult where
  /-- Port computed as `p1*256+p2`. -/
  | ok (port : Int)
  /-- The "invalid EPSV response format" error raised when a parenthesis
  is missing (the message text is a copy-paste from `epsv`). -/
  | formatError
  /-- A `strconv.Atoi` failure on field 4 or 5. -/
  | numError
  /-- A Go runtime panic from an out-of-range index or slice. -/
  | indexOutOfRange
  deriving DecidableEq

/-- The reply parsing of `pasv`: locate the first `(` and last `)`,
split the text between them on commas, and combine fields 4 and 5 into
the port. -/
def pasvParse (line : List Char) : PasvResult :=
  match goIndex line '(', goLastIndex line ')' with
  | some s, some e =>
    if s + 1 ≤ e then
      let pasvData := goSplit ',' (goSlice line (s + 1) e)
      match pasvData.get? 4 with
      | none => .indexOutOfRange
      | some f4 =>
        match goAtoi f4 with
        | none => .numError
        | some portPart1 =>
          match pasvData.get? 5 with
          | none => .indexOutOfRange
          | some f5 =>
            match goAtoi f5 with
            | none => .numError
            | some portPart2 => .ok (portPart1 * 256 + portPart2)
    else .indexOutOfRange
  | _, _ => .formatError

/-- C2: a PASV reply whose parenthesized part splits into comma fields
with numeric fields 4 and 5 yields the port `p1*256+p2`; a reply line
missing `(` or `)` yields the format error (and hence no port). -/
theorem pasv_port_and_format (line : List Char) (s e : Nat)
    (f4 f5 : List Char) (p1 p2 : Int)
    (hs : goIndex line '(' = some s) (he : goLastIndex line ')' = some e)
    (hlt : s < e)
    (h4 : (goSplit ',' (goSlice line (s + 1) e)).get? 4 = some f4)
    (h5 : (goSplit ',' (goSlice line (s + 1) e)).get? 5 = some f5)
    (hp1 : goAtoi f4 = some p1) (hp2 : goAtoi f5 = some p2) :
    pasvParse line = .ok (p1 * 256 + p2) ∧
    (∀ l : List Char, goIndex l '(' = none ∨ goLastIndex l ')' = none →
      pasvParse l = .formatError) := by
  constructor
  · unfold pasvParse
    rw [hs, he]
    simp only [h4, h5, hp1, hp2, if_pos (by omega : s + 1 ≤ e)]
  · intro l hl
    unfold pasvParse
    rcases hl with h | h
    · rw [h]
    · rw [h]
      rcases goIndex l '(' with _ | _ <;> rfl

/-- A well-formed PASV reply line. -/
def c2SampleLine : List Char :=
  "227 Entering Passive Mode (192,168,1,2,25,41).".toList

/-- A PASV reply line with no parentheses. -/
def c2BadLine : List Char := "227 Entering Passive Mode".toList

/-- C2 witness: the theorem applied to a concrete valid reply
(port 25*256+41 = 6441) and a concrete parenthesis-free reply. -/
theorem pasv_port_and_format_witness :
    pasvParse c2SampleLine = .ok 6441 ∧ pasvParse c2BadLine = .formatError := by
  have h := pasv_port_and_format c2SampleLine 26 44
    ("25".toList) ("41".toList) 25 41 (by decide) (by decide) (by decide)
    (by decide) (by decide) (by decide) (by decide)
  exact ⟨h.1, h.2 c2BadLine (Or.inl (by decide))⟩

/-- A reply with both parentheses but five comma fields, the fifth not
numeric: `pasv` reaches the `Atoi` of field index 4 and fails there,
returning a numeric-parse error — neither a format error nor a panic. -/
def c8FiveFieldLine : List Char := "227 (a,b,c,d,x)".toList

/-- C8 counterexample: a line with both parentheses and fewer than six
comma-separated fields between them on which the parsing step does NOT
perform an out-of-range access (it returns an `Atoi` error), refuting
the claim that fewer than six fields always leads to an out-of-range
access. -/
theorem pasv_five_fields_no_panic :
    goIndex c8FiveFieldLine '(' = some 4 ∧
    goLastIndex c8FiveFieldLine ')' = some 14 ∧
    (goSplit ',' (goSlice c8FiveFieldLine 5 14)).length = 5 ∧
    pasvParse c8FiveFieldLine = .numError := by decide

/-- The example reply from the claim, with three comma fields. -/
def c8ThreeFieldLine : List Char := "227 (1,2,3)".toList

/-- C8 (amended): with both parentheses present and at least six comma
fields between them, the parsing step never performs an out-of-range
access; on the three-field example `227 (1,2,3)` it does perform an
out-of-range access instead of returning a format error. -/
theorem pasv_index_safety (line : List Char) (s e : Nat)
    (hs : goIndex line '(' = some s) (he : goLastIndex line ')' = some e)
    (hlt : s < e)
    (hlen : 6 ≤ (goSplit ',' (goSlice line (s + 1) e)).length) :
    pasvParse line ≠ .indexOutOfRange ∧
    pasvParse c8ThreeFieldLine = .indexOutOfRange := by
  refine ⟨?_, by decide⟩
  simp only [pasvParse, hs, he]
  rw [if_pos (by omega : s + 1 ≤ e)]
  have h4 : (goSplit ',' (goSlice line (s + 1) e)).get? 4 =
      some ((goSplit ',' (goSlice line (s + 1) e)).get ⟨4, by omega⟩) :=
    List.get?_eq_get (by omega)
  have h5 : (goSplit ',' (goSlice line (s + 1) e)).get? 5 =
      some ((goSplit ',' (goSlice line (s + 1) e)).get ⟨5, by omega⟩) :=
    List.get?_eq_get (by omega)
  simp only [h4, h5]
  rcases goAtoi ((goSplit ',' (goSlice line (s + 1) e)).get ⟨4, by omega⟩) with _ | p1
  · simp
  · rcases goAtoi ((goSplit ',' (goSlice line (s + 1) e)).get ⟨5, by omega⟩) with _ | p2 <;> simp

/-- C8 witness: the safety half of the amended theorem applied at the
concrete valid reply line. -/
theorem pasv_index_safety_witness :
    pasvParse c2SampleLine ≠ .indexOutOfRange ∧
    pasvParse c8ThreeFieldLine = .indexOutOfRange :=
  pasv_index_safety c2SampleLine 26 44 (by decide) (by decide) (by decide)
    (by decide)

/-! ### The heuristic LIST line parser

`parseListLine` builds the entry timestamp by re-assembling a
`"_2 Jan 06 15:04"` string from whitespace-free fields and parsing it
with `time.ParseInLocation` in the local zone.  Because the pieces are
space-free, that parse decomposes into independent component parses,
modelled by `goParseDMYT`; the resulting wall-clock components (the
parse happens in the local zone and `t.Local()` keeps the instant) are
recorded in `DateTime`. -/

/-- Wall-clock components of the parsed local time. -/
structure DateTime where
  year : Nat
  month : Nat
  day : Nat
  hour : Nat
  minute : Nat
  deriving DecidableEq

/-- The three `EntryType` values of the package. -/
inductive EntryType where
  | file
  | folder
  | link
  deriving DecidableEq

/-- `Entry` as returned by `List()`. -/
structure Entry where
  name : List Char
  etype : EntryType
  size : Nat
  time : DateTime
  deriving DecidableEq

/-- Errors of `parseListLine`; `indexPanic` stands for a Go runtime
panic (string index or slice out of range). -/
inductive PErr where
  | unsupportedLine
  | unknownType
  | numParse
  | monthParse
  | timeParse
  | indexPanic
  deriving DecidableEq

/-- Go's short month names, lowercased (`time` package's name lookup is
ASCII case-insensitive). -/
def monthNames : List (List Char) :=
  [r"jan".toList, r"feb".toList, r"mar".toList, r"apr".toList,
   r"may".toList, r"jun".toList, r"jul".toList, r"aug".toList,
   r"sep".toList, r"oct".toList, r"nov".toList, r"dec".toList]

/-- Month-name component parse of the `"Jan"` layout element: the field
must be exactly a short month name (any ASCII case); yields 1–12. -/
def goMonth (s : List Char) : Option Nat :=
  (monthNames.indexOf? (goToLower s)).map (· + 1)

/-- Day component of the `"_2"` layout element: an optional leading
space then one or two digits. -/
def parseDay : List Char → Option Nat
  | ' ' :: rest => parseDay2 rest
  | s => parseDay2 s
where
  /-- One or two digits making up the day. -/
  parseDay2 : List Char → Option Nat
  | [c] => if isDigitCh c then some (digitVal c) else none
  | [c1, c2] =>
    if isDigitCh c1 ∧ isDigitCh c2 then some (digitVal c1 * 10 + digitVal c2)
    else none
  | _ => none

/-- Two-digit component of the `"06"` layout element. -/
def parse2digits : List Char → Option Nat
  | [c1, c2] =>
    if isDigitCh c1 ∧ isDigitCh c2 then some (digitVal c1 * 10 + digitVal c2)
    else none
  | _ => none

/-- The `time` package's two-digit year pivot: 69–99 → 19xx, 00–68 → 20xx. -/
def expandYear2 (yy : Nat) : Nat := if 69 ≤ yy then 1900 + yy else 2000 + yy

/-- `"15:04"` component: a one- or two-digit hour, a literal colon, and
exactly two minute digits, consuming the whole field. -/
def parseHM : List Char → Option (Nat × Nat)
  | [c1, ':', c3, c4] =>
    if isDigitCh c1 ∧ isDigitCh c3 ∧ isDigitCh c4 then
      some (digitVal c1, digitVal c3 * 10 + digitVal c4)
    else none
  | [c1, c2, ':', c3, c4] =>
    if isDigitCh c1 ∧ isDigitCh c2 ∧ isDigitCh c3 ∧ isDigitCh c4 then
      some (digitVal c1 * 10 + digitVal c2, digitVal c3 * 10 + digitVal c4)
    else none
  | _ => none

/-- Gregorian leap-year rule used by the `time` package. -/
def isLeap (y : Nat) : Bool := y % 4 = 0 ∧ (y % 100 ≠ 0 ∨ y % 400 = 0)

/-- Days in a month, used by the parse-time day-of-month range check. -/
def daysIn (y m : Nat) : Nat :=
  if m = 2 then (if isLeap y then 29 else 28)
  else if m = 4 ∨ m = 6 ∨ m = 9 ∨ m = 11 then 30
  else 31

/-- `time.ParseInLocation("_2 Jan 06 15:04", day⬝" "⬝mon⬝" "⬝yy⬝" "⬝hm, Local)`
decomposed into its four component parses plus the range checks the
`time` package performs (day against the month length, hour ≤ 23,
minute ≤ 59). -/
def goParseDMYT (dayS monS yearS timeS : List Char) : Option DateTime :=
  match parseDay dayS, goMonth monS, parse2digits yearS, parseHM timeS with
  | some d, some m, some yy, some (h, mi) =>
    if 1 ≤ d ∧ d ≤ daysIn (expandYear2 yy) m ∧ h ≤ 23 ∧ mi ≤ 59 then
      some ⟨expandYear2 yy, m, d, h, mi⟩
    else none
  | _, _, _, _ => none

/-- `setYear` after the month heuristic: the current year, decremented
when the listed month is later in the calendar than the current month. -/
def setYearOf (currYear currMon dateMon : Nat) : Nat :=
  if currMon < dateMon then currYear - 1 else currYear

/-- `fields[i]` once `len(fields)` has been checked (the default is
never reached on the paths the code takes). -/
def fieldAt (fields : List (List Char)) (i : Nat) : List Char :=
  (fields.get? i).getD []

/-- The body of `parseListLine` after `strings.Fields`, parameterised by
the current local year and month (`time.Now().Date()`). -/
def parseListFields (c : ConnCfg) (currYear currMon : Nat)
    (fields : List (List Char)) : Except PErr Entry :=
  if fields.length < 9 then .error .unsupportedLine
  else
    match (fieldAt fields 0).head? with
    | none => .error .indexPanic
    | some tc =>
      match (if tc = '-' then some EntryType.file
             else if tc = 'd' then some EntryType.folder
             else if tc = 'l' then some EntryType.link
             else none) with
      | none => .error .unknownType
      | some ty =>
        match (if ty = EntryType.file then goParseUint (fieldAt fields 4)
               else some 0) with
        | none => .error .numParse
        | some size =>
          match goMonth (fieldAt fields 5) with
          | none => .error .monthParse
          | some dateMon =>
            -- `setYear` is the current year, decremented when the listed
            -- month is later than the current month; `nm` the rejoined name
            if (fieldAt fields 7).contains ':' then
              -- year hidden (this or previous year), time present:
              -- strconv.Itoa(setYear)[2:4] is the two-digit year piece
              if (goItoa (setYearOf currYear currMon dateMon)).length < 4
              then .error .indexPanic
              else
                match goParseDMYT (fieldAt fields 6) (fieldAt fields 5)
                    (goSlice (goItoa (setYearOf currYear currMon dateMon)) 2 4)
                    (fieldAt fields 7) with
                | none => .error .timeParse
                | some dt =>
                  .ok ⟨fromServerEncodingStr c
                    (List.intercalate [' '] (fields.drop 8)), ty, size, dt⟩
            else
              -- year present, time hidden: fields[7][2:4] and "00:00"
              if (fieldAt fields 7).length < 4 then .error .indexPanic
              else
                match goParseDMYT (fieldAt fields 6) (fieldAt fields 5)
                    (goSlice (fieldAt fields 7) 2 4)
                    ([ '0', '0', ':', '0', '0' ]) with
                | none => .error .timeParse
                | some dt =>
                  .ok ⟨fromServerEncodingStr c
                    (List.intercalate [' '] (fields.drop 8)), ty, size, dt⟩

/-- `parseListLine`, the heuristic LIST parser. -/
def parseListLine (c : ConnCfg) (currYear currMon : Nat) (line : List Char) :
    Except PErr Entry :=
  parseListFields c currYear currMon (goFields line)

/-- The digit characters emitted by `goItoa` evaluate back to their value. -/
theorem digitChar_val (k : Nat) (hk : k ≤ 9) :
    isDigitCh (digitChar k) = true ∧ digitVal (digitChar k) = k := by
  interval_cases k <;> exact ⟨by decide, by decide⟩

/-- Unfolding step of `goItoaAux` for a multi-digit number. -/
theorem goItoaAux_step (fuel n : Nat) (h : 10 ≤ n) :
    goItoaAux (fuel + 1) n = goItoaAux fuel (n / 10) ++ [digitChar (n % 10)] := by
  simp only [goItoaAux, if_neg (by omega : ¬ n < 10)]

/-- Base step of `goItoaAux` for a single digit. -/
theorem goItoaAux_base (fuel n : Nat) (h : n < 10) :
    goItoaAux (fuel + 1) n = [digitChar n] := by
  simp only [goItoaAux, if_pos h]

/-- `strconv.Itoa` of a four-digit number, digit by digit. -/
theorem goItoa_four (y : Nat) (h1 : 1000 ≤ y) (h2 : y ≤ 9999) :
    goItoa y = [digitChar (y / 1000), digitChar (y / 100 % 10),
      digitChar (y / 10 % 10), digitChar (y % 10)] := by
  unfold goItoa
  rw [(by omega : y + 1 = (y - 3) + 3 + 1)]
  rw [goItoaAux_step _ _ (by omega)]
  rw [(by omega : y - 3 + 3 = y - 3 + 2 + 1)]
  rw [goItoaAux_step _ _ (by omega : 10 ≤ y / 10)]
  rw [(by omega : y / 10 / 10 = y / 100)]
  rw [(by omega : y - 3 + 2 = y - 3 + 1 + 1)]
  rw [goItoaAux_step _ _ (by omega : 10 ≤ y / 100)]
  rw [(by omega : y / 100 / 10 = y / 1000)]
  rw [goItoaAux_base _ _ (by omega : y / 1000 < 10)]
  simp

/-- For a year between 1969 and 2068, `Itoa(y)[2:4]` is its last two
digits, those re-parse to `y % 100`, and the two-digit pivot restores `y`. -/
theorem year_slice_roundtrip (y : Nat) (h1 : 1969 ≤ y) (h2 : y ≤ 2068) :
    ¬ (goItoa y).length < 4 ∧
    parse2digits (goSlice (goItoa y) 2 4) = some (y % 100) ∧
    expandYear2 (y % 100) = y := by
  have h4 := goItoa_four y (by omega) (by omega)
  refine ⟨by rw [h4]; simp, ?_, ?_⟩
  · rw [h4]
    show parse2digits [digitChar (y / 10 % 10), digitChar (y % 10)] = _
    obtain ⟨d1, v1⟩ := digitChar_val (y / 10 % 10) (by omega)
    obtain ⟨d2, v2⟩ := digitChar_val (y % 10) (by omega)
    simp only [parse2digits, if_pos (And.intro d1 d2), v1, v2]
    exact congrArg some (by omega)
  · unfold expandYear2
    split <;> omega

/-- Inversion of a successful `parseListFields` run: the intermediate
values the code computed on its way to the entry. -/
theorem parseListFields_inv (c : ConnCfg) (cy cm : Nat)
    (fields : List (List Char)) (e : Entry)
    (h : parseListFields c cy cm fields = .ok e) :
    ∃ tc ty size dateMon dt,
      (fieldAt fields 0).head? = some tc ∧
      (if tc = '-' then some EntryType.file
       else if tc = 'd' then some EntryType.folder
       else if tc = 'l' then some EntryType.link
       else none) = some ty ∧
      (if ty = EntryType.file then goParseUint (fieldAt fields 4)
       else some 0) = some size ∧
      goMonth (fieldAt fields 5) = some dateMon ∧
      e = ⟨fromServerEncodingStr c (List.intercalate [' '] (fields.drop 8)),
        ty, size, dt⟩ ∧
      (((fieldAt fields 7).contains ':' = true ∧
        goParseDMYT (fieldAt fields 6) (fieldAt fields 5)
          (goSlice (goItoa (setYearOf cy cm dateMon)) 2 4)
          (fieldAt fields 7) = some dt) ∨
       ((fieldAt fields 7).contains ':' = false ∧
        goParseDMYT (fieldAt fields 6) (fieldAt fields 5)
          (goSlice (fieldAt fields 7) 2 4)
          ([ '0', '0', ':', '0', '0' ]) = some dt)) := by
  unfold parseListFields at h
  split at h
  · exact Except.noConfusion h
  · split at h
    · exact Except.noConfusion h
    · rename_i tc htc
      split at h
      · exact Except.noConfusion h
      · rename_i ty hty
        split at h
        · exact Except.noConfusion h
        · rename_i size hsize
          split at h
          · exact Except.noConfusion h
          · rename_i dateMon hmon
            split at h
            · -- the ':' branch
              rename_i hcolon
              split at h
              · exact Except.noConfusion h
              · split at h
                · exact Except.noConfusion h
                · rename_i dt hdt
                  refine ⟨tc, ty, size, dateMon, dt, htc, hty, hsize, hmon,
                    ?_, Or.inl ⟨by simpa using hcolon, hdt⟩⟩
                  exact (Except.ok.injEq _ _ ▸ h).symm
            · -- the year-present branch
              rename_i hcolon
              split at h
              · exact Except.noConfusion h
              · split at h
                · exact Except.noConfusion h
                · rename_i dt hdt
                  refine ⟨tc, ty, size, dateMon, dt, htc, hty, hsize, hmon,
                    ?_, Or.inr ⟨by simpa using hcolon, hdt⟩⟩
                  exact (Except.ok.injEq _ _ ▸ h).symm

/-- Inversion of a successful `goParseDMYT`: the four component parses
succeeded and the result is assembled from them. -/
theorem goParseDMYT_spec (dayS monS yearS timeS : List Char) (dt : DateTime)
    (h : goParseDMYT dayS monS yearS timeS = some dt) :
    ∃ d m yy hh mi, parseDay dayS = some d ∧ goMonth monS = some m ∧
      parse2digits yearS = some yy ∧ parseHM timeS = some (hh, mi) ∧
      dt = ⟨expandYear2 yy, m, d, hh, mi⟩ := by
  unfold goParseDMYT at h
  split at h
  · rename_i d m yy hh mi hd hm hy ht
    split at h
    · exact ⟨d, m, yy, hh, mi, hd, hm, hy, ht, (Option.some.injEq _ _ ▸ h).symm⟩
    · exact Option.noConfusion h
  · exact Option.noConfusion h

/-- C3: on a successfully parsed LIST line whose field 7 carries a time
(so the year is implicit), the entry's year is the current year,
decremented by one exactly when the listed month is later in the
calendar than the current month.  (The year range keeps the two-digit
round trip through `Itoa(setYear)[2:4]` faithful.) -/
theorem list_year_heuristic (c : ConnCfg) (cy cm : Nat) (line : List Char)
    (e : Entry) (m : Nat) (f5 f7 : List Char)
    (hok : parseListLine c cy cm line = .ok e)
    (hf5 : fieldAt (goFields line) 5 = f5)
    (hf7 : fieldAt (goFields line) 7 = f7)
    (hcolon : f7.contains ':' = true)
    (hm : goMonth f5 = some m)
    (hy1 : 1970 ≤ cy) (hy2 : cy ≤ 2068) :
    e.time.year = if cm < m then cy - 1 else cy := by
  obtain ⟨tc, ty, size, dateMon, dt, _, _, _, hmon, hent, hbr⟩ :=
    parseListFields_inv c cy cm (goFields line) e hok
  rw [hf5] at hmon
  have hdm : m = dateMon := by
    rw [hm] at hmon; exact (Option.some.injEq _ _ ▸ hmon)
  subst hdm
  rcases hbr with ⟨_, hdt⟩ | ⟨hnc, _⟩
  · rw [hf5] at hdt
    obtain ⟨d, m', yy, hh, mi, _, _, hy, _, hdteq⟩ :=
      goParseDMYT_spec _ _ _ _ _ hdt
    have hrange : 1969 ≤ setYearOf cy cm m ∧ setYearOf cy cm m ≤ 2068 := by
      unfold setYearOf; split <;> omega
    obtain ⟨_, hslice, hexp⟩ :=
      year_slice_roundtrip (setYearOf cy cm m) hrange.1 hrange.2
    rw [hslice] at hy
    have hyy : yy = setYearOf cy cm m % 100 :=
      (Option.some.injEq _ _ ▸ hy).symm
    have : e.time = dt := by rw [hent]
    rw [this, hdteq]
    show expandYear2 yy = _
    rw [hyy, hexp]
    unfold setYearOf
    rfl
  · rw [hf7] at hnc
    rw [hcolon] at hnc
    exact Bool.noConfusion hnc

/-- A LIST line in the implicit-year format with month December. -/
def c3Line : List Char := "-rw-r--r-- 1 user group 1024 Dec 15 10:30 file.txt".toList

/-- The entry `c3Line` parses to with current date 2026-10. -/
def c3Entry : Entry :=
  { name := "file.txt".toList, etype := EntryType.file, size := 1024,
    time := { year := 2025, month := 12, day := 15, hour := 10, minute := 30 } }

/-- The month field of `c3Line`. -/
def c3F5 : List Char := "Dec".toList

/-- The time field of `c3Line`. -/
def c3F7 : List Char := "10:30".toList

/-- C3 witness: with current date October 2026 a December line is dated
in the previous year, by the theorem applied at the concrete input. -/
theorem list_year_heuristic_witness :
    parseListLine plainTranslatingCfg 2026 10 c3Line = .ok c3Entry ∧
    c3Entry.time.year = (if 10 < 12 then 2026 - 1 else 2026) :=
  ⟨by rfl,
   list_year_heuristic plainTranslatingCfg 2026 10 c3Line c3Entry 12 c3F5 c3F7
     (by rfl) (by decide) (by decide) (by decide) (by decide) (by decide)
     (by decide)⟩

/-- For a four-digit field, the `[2:4]` slice re-parses to the value
modulo 100. -/
theorem digits4_parse (s : List Char) (y : Nat)
    (h : goParseUint s = some y) (hl : s.length = 4) :
    parse2digits (goSlice s 2 4) = some (y % 100) := by
  rcases s with _ | ⟨a, _ | ⟨b, _ | ⟨c, _ | ⟨d, _ | ⟨x, tail⟩⟩⟩⟩⟩ <;> simp at hl
  simp only [goParseUint, digitsVal, digitsValAux] at h
  by_cases ha : isDigitCh a = true
  swap
  · rw [if_neg ha] at h; exact Option.noConfusion h
  rw [if_pos ha] at h
  by_cases hb : isDigitCh b = true
  swap
  · rw [if_neg hb] at h; exact Option.noConfusion h
  rw [if_pos hb] at h
  by_cases hc : isDigitCh c = true
  swap
  · rw [if_neg hc] at h; exact Option.noConfusion h
  rw [if_pos hc] at h
  by_cases hd : isDigitCh d = true
  swap
  · rw [if_neg hd] at h; exact Option.noConfusion h
  rw [if_pos hd] at h
  have hy := Option.some.inj h
  have ba := of_decide_eq_true ha
  have bb := of_decide_eq_true hb
  have bc := of_decide_eq_true hc
  have bd := of_decide_eq_true hd
  show parse2digits [c, d] = some (y % 100)
  simp only [parse2digits, if_pos (And.intro hc hd)]
  refine congrArg some ?_
  simp only [digitVal] at hy ⊢
  omega

/-- C4 (amended): on a successfully parsed LIST line whose field 7 has
no colon, the time of day is 00:00 (in the local zone of the model), a
`d` type character yields size 0, and the entry year is the two-digit
pivot expansion of characters 2–3 of field 7 — which equals field 7's
full four-digit value exactly when that value lies in 1969–2068. -/
theorem list_noyear_branch (c : ConnCfg) (cy cm : Nat) (line : List Char)
    (e : Entry) (c0 : Char) (f0 f7 : List Char)
    (hok : parseListLine c cy cm line = .ok e)
    (hf0 : fieldAt (goFields line) 0 = f0)
    (hc0 : f0.head? = some c0)
    (hf7 : fieldAt (goFields line) 7 = f7)
    (hnc : f7.contains ':' = false) :
    e.time.hour = 0 ∧ e.time.minute = 0 ∧
    (c0 = 'd' → e.size = 0) ∧
    (∀ yy, parse2digits (goSlice f7 2 4) = some yy →
      e.time.year = expandYear2 yy) ∧
    (∀ y4, goParseUint f7 = some y4 → f7.length = 4 → 1969 ≤ y4 →
      y4 ≤ 2068 → e.time.year = y4) := by
  obtain ⟨tc, ty, size, dateMon, dt, htc, hty, hsize, _, hent, hbr⟩ :=
    parseListFields_inv c cy cm (goFields line) e hok
  rcases hbr with ⟨hcl, _⟩ | ⟨_, hdt⟩
  · rw [hf7, hnc] at hcl
    exact Bool.noConfusion hcl
  · rw [hf7] at hdt
    obtain ⟨d, m', yy, hh, mi, _, _, hy, hhm, hdteq⟩ :=
      goParseDMYT_spec _ _ _ _ _ hdt
    have hpHM : parseHM ([ '0', '0', ':', '0', '0' ]) = some (0, 0) := by decide
    rw [hpHM] at hhm
    obtain ⟨hh0, mi0⟩ : (0 : Nat) = hh ∧ (0 : Nat) = mi :=
      Prod.mk.injEq _ _ _ _ ▸ Option.some.inj hhm
    rw [hf0] at htc
    rw [hc0] at htc
    have htc0 : c0 = tc := Option.some.inj htc
    refine ⟨by rw [hent, hdteq, ← hh0], by rw [hent, hdteq, ← mi0], ?_, ?_, ?_⟩
    · intro hcd
      rw [hcd] at htc0
      rw [← htc0] at hty
      have hfold : ty = EntryType.folder := by
        simpa using hty.symm
      rw [hfold] at hsize
      have hs0 : size = 0 := by simpa using hsize.symm
      rw [hent, hs0]
    · intro yy' hyy'
      rw [hyy'] at hy
      have : yy' = yy := Option.some.inj hy
      rw [hent, hdteq, ← this]
    · intro y4 hPU hlen h1 h2
      have hps := digits4_parse f7 y4 hPU hlen
      rw [hps] at hy
      have hyy : y4 % 100 = yy := Option.some.inj hy
      rw [hent, hdteq, ← hyy]
      show expandYear2 (y4 % 100) = y4
      unfold expandYear2
      split <;> omega

/-- A LIST line carrying the four-digit year 2070 (no time field). -/
def c4Line : List Char := "drwxr-xr-x 2 user group 0 Jan 15 2070 dir".toList

/-- The entry `c4Line` actually parses to with current date 2026-10:
the year comes out as 1970, not 2070. -/
def c4Entry : Entry :=
  { name := "dir".toList, etype := EntryType.folder, size := 0,
    time := { year := 1970, month := 1, day := 15, hour := 0, minute := 0 } }

/-- C4 counterexample: field 7 of `c4Line` is the four-digit year 2070,
yet the parsed entry's year is 1970 — the code does not treat field 7 as
a four-digit year but re-parses its characters 2–3 under the two-digit
pivot. -/
theorem list_year_2070_counterexample :
    parseListLine plainTranslatingCfg 2026 10 c4Line = .ok c4Entry ∧
    fieldAt (goFields c4Line) 7 = ([ '2', '0', '7', '0' ]) ∧
    c4Entry.time.year ≠ 2070 :=
  ⟨rfl, rfl, by decide⟩

/-- A directory LIST line with the in-range four-digit year 1985. -/
def c4wLine : List Char := "drwxr-xr-x 2 user group 0 Jan 15 1985 dir".toList

/-- The entry `c4wLine` parses to. -/
def c4wEntry : Entry :=
  { name := "dir".toList, etype := EntryType.folder, size := 0,
    time := { year := 1985, month := 1, day := 15, hour := 0, minute := 0 } }

/-- Field 0 of `c4wLine`. -/
def c4wF0 : List Char := "drwxr-xr-x".toList

/-- Field 7 of `c4wLine`. -/
def c4wF7 : List Char := "1985".toList

/-- C4 witness: the amended theorem applied at the concrete 1985 line
(the parse itself is checked in the first conjunct). -/
theorem list_noyear_branch_witness :
    parseListLine plainTranslatingCfg 2026 10 c4wLine = .ok c4wEntry ∧
    c4wEntry.time.hour = 0 ∧ c4wEntry.size = 0 ∧
    c4wEntry.time.year = 1985 := by
  have h := list_noyear_branch plainTranslatingCfg 2026 10 c4wLine c4wEntry
    'd' c4wF0 c4wF7 rfl rfl rfl rfl rfl
  exact ⟨rfl, h.1, h.2.2.1 rfl,
    h.2.2.2.2 1985 (by rfl) (by rfl) (by decide) (by decide)⟩

/-! ### The standardized MLSD/MLST fact parser -/

/-- `EntryEx`: the name plus the fact map.  The Go `map[string]string`
is modelled as an association list with overwrite-on-insert; only its
lookup behaviour is relied upon. -/
structure EntryEx where
  name : List Char
  facts : List (List Char × List Char)
  deriving DecidableEq

/-- `e.Facts[k] = v`: overwrite an existing binding, else append. -/
def insertFact (facts : List (List Char × List Char)) (k v : List Char) :
    List (List Char × List Char) :=
  if facts.any (fun p => p.1 = k) then
    facts.map (fun p => if p.1 = k then (k, v) else p)
  else facts ++ [(k, v)]

/-- `v, ok := e.Facts[k]`. -/
def factsLookup (facts : List (List Char × List Char)) (k : List Char) :
    Option (List Char) :=
  (facts.find? (fun p => p.1 = k)).map (·.2)

/-- One non-final field of an MLSx line: a `key=value` fact is stored
under the lowercased key; anything not splitting into exactly two parts
around `=` is dropped. -/
def mlistFactStep (facts : List (List Char × List Char)) (item : List Char) :
    List (List Char × List Char) :=
  match goSplit '=' item with
  | [k, v] => insertFact facts (goToLower k) v
  | _ => facts

/-- The error of `parseMListLine` (`"invalid filename %s"`). -/
inductive MLErr where
  | invalidFilename
  deriving DecidableEq

/-- The field loop of `parseMListLine`: every item except the last is a
fact; the last must start with a space and carries the filename.  (The
`[]` case is unreachable: `strings.Split` never yields an empty list.) -/
def mlistLoop (c : ConnCfg) (facts : List (List Char × List Char)) :
    List (List Char) → Except MLErr EntryEx
  | [] => .ok ⟨[], facts⟩
  | [last] =>
    if last.head? = some ' ' then
      .ok ⟨fromServerEncodingStr c last.tail, facts⟩
    else .error .invalidFilename
  | item :: next :: rest => mlistLoop c (mlistFactStep facts item) (next :: rest)

/-- `parseMListLine`: trim the line, split on `;`, run the field loop. -/
def parseMListLine (c : ConnCfg) (line : List Char) : Except MLErr EntryEx :=
  mlistLoop c [] (goSplit ';' (goTrim line))

/-- The fact map described by the spec: every non-final field in
`key=value` form stored under the lowercased key, malformed fields
silently dropped. -/
def factsOfSpec (fs : List (List Char)) : List (List Char × List Char) :=
  fs.foldl mlistFactStep []

/-- The fact fields are folded left-to-right before the final field is
examined. -/
theorem mlistLoop_append (c : ConnCfg) (facts : List (List Char × List Char))
    (fs : List (List Char)) (last : List Char) :
    mlistLoop c facts (fs ++ [last]) =
      mlistLoop c (fs.foldl mlistFactStep facts) [last] := by
  induction fs generalizing facts with
  | nil => rfl
  | cons f fs ih =>
    have hstep : mlistLoop c facts ((f :: fs) ++ [last]) =
        mlistLoop c (mlistFactStep facts f) (fs ++ [last]) := by
      rcases fs with _ | ⟨y, rest⟩ <;> rfl
    rw [hstep, ih, List.foldl_cons]

/-- Lookup in a list extended with a binding for a previously absent key. -/
theorem find_append_kv (F : List (List Char × List Char)) (k v : List Char) :
    F.any (fun p => p.1 = k) = false →
    factsLookup (F ++ [(k, v)]) k = some v := by
  induction F with
  | nil =>
    intro _
    simp [factsLookup, List.find?]
  | cons p F ih =>
    intro hF
    simp only [List.any_cons, Bool.or_eq_false_iff] at hF
    obtain ⟨hp, hF2⟩ := hF
    rw [List.cons_append]
    unfold factsLookup
    rw [List.find?_cons_of_neg _ (by simpa using hp)]
    exact ih hF2

/-- Lookup in a list whose binding for a present key was overwritten. -/
theorem find_map_overwrite (F : List (List Char × List Char))
    (k v : List Char) :
    F.any (fun p => p.1 = k) = true →
    factsLookup (F.map (fun p => if p.1 = k then (k, v) else p)) k = some v := by
  induction F with
  | nil =>
    intro h
    simp at h
  | cons p F ih =>
    intro h
    by_cases hp : p.1 = k
    · rw [List.map_cons, if_pos hp]
      unfold factsLookup
      rw [List.find?_cons_of_pos _ (by simp)]
      rfl
    · have hF : F.any (fun q => q.1 = k) = true := by
        simpa [List.any_cons, hp] using h
      rw [List.map_cons, if_neg hp]
      unfold factsLookup
      rw [List.find?_cons_of_neg _ (by simpa using hp)]
      exact ih hF

/-- Looking up the freshly inserted key yields the fresh value. -/
theorem factsLookup_insertFact (F : List (List Char × List Char))
    (k v : List Char) :
    factsLookup (insertFact F k v) k = some v := by
  unfold insertFact
  by_cases hF : F.any (fun p => p.1 = k) = true
  · rw [if_pos hF]
    exact find_map_overwrite F k v hF
  · rw [if_neg hF]
    refine find_append_kv F k v ?_
    simp only [Bool.not_eq_true] at hF
    exact hF

/-- A field that does not split into exactly one key and one value is
dropped without affecting the fact map. -/
theorem mlistFactStep_malformed (facts : List (List Char × List Char))
    (bad : List Char) (h : (goSplit '=' bad).length ≠ 2) :
    mlistFactStep facts bad = facts := by
  unfold mlistFactStep
  rcases hs : goSplit '=' bad with _ | ⟨a, _ | ⟨b, _ | ⟨c, t⟩⟩⟩
  · rfl
  · rfl
  · exact absurd (by rw [hs]; rfl) h
  · rfl

/-- C6: splitting the trimmed MLSx line on `;` into fact fields and a
final field, (1) when the final field starts with a space the parse
succeeds, the name is the remainder of that field (through the
encoding gate) and the facts are exactly the well-formed `key=value`
fields stored under lowercased keys; (2) dropping a malformed fact
field leaves the fact map unchanged; (3) a well-formed fact is found
under its lowercased key; (4) when the final field does not start with
a space the parse fails with the invalid-filename error. -/
theorem mlist_line_parse (c : ConnCfg) (line : List Char)
    (fs : List (List Char)) (last : List Char)
    (hsplit : goSplit ';' (goTrim line) = fs ++ [last]) :
    (∀ nm, last = ' ' :: nm →
      parseMListLine c line = .ok ⟨fromServerEncodingStr c nm, factsOfSpec fs⟩) ∧
    (∀ fs1 fs2 bad, (goSplit '=' bad).length ≠ 2 →
      factsOfSpec (fs1 ++ bad :: fs2) = factsOfSpec (fs1 ++ fs2)) ∧
    (∀ F k v item, goSplit '=' item = [k, v] →
      factsLookup (mlistFactStep F item) (goToLower k) = some v) ∧
    (last.head? ≠ some ' ' →
      parseMListLine c line = .error .invalidFilename) := by
  refine ⟨?_, ?_, ?_, ?_⟩
  · intro nm hnm
    unfold parseMListLine
    rw [hsplit, mlistLoop_append, hnm]
    rw [show mlistLoop c (fs.foldl mlistFactStep []) [' ' :: nm] =
      .ok ⟨fromServerEncodingStr c nm, fs.foldl mlistFactStep []⟩ from rfl]
    rfl
  · intro fs1 fs2 bad hbad
    unfold factsOfSpec
    rw [List.foldl_append, List.foldl_cons, List.foldl_append,
      mlistFactStep_malformed _ bad hbad]
  · intro F k v item hit
    unfold mlistFactStep
    rw [hit]
    exact factsLookup_insertFact F (goToLower k) v
  · intro hne
    unfold parseMListLine
    rw [hsplit, mlistLoop_append]
    rw [show mlistLoop c (fs.foldl mlistFactStep []) [last] =
      (if last.head? = some ' ' then
        .ok ⟨fromServerEncodingStr c last.tail, fs.foldl mlistFactStep []⟩
       else .error .invalidFilename) from rfl]
    rw [if_neg hne]

/-- A well-formed MLSD line with one malformed fact field. -/
def c6Line : List Char := "Type=dir;bad;size=42; docs".toList

/-- Its fact fields. -/
def c6Fs : List (List Char) :=
  [r"Type=dir".toList, r"bad".toList, r"size=42".toList]

/-- Its final field. -/
def c6Last : List Char := " docs".toList

/-- A final field with no leading space. -/
def c6BadLine : List Char := "Type=dir;docs".toList

/-- C6 witness: the theorem applied at a concrete line; the parse
stores `type ↦ dir` and `size ↦ 42` (keys lowercased), drops the
malformed field, names the entry `docs`, and the space-less variant is
rejected. -/
theorem mlist_line_parse_witness :
    parseMListLine plainTranslatingCfg c6Line =
      .ok ⟨"docs".toList, factsOfSpec c6Fs⟩ ∧
    factsLookup (factsOfSpec c6Fs) ("type".toList) = some ("dir".toList) ∧
    factsLookup (factsOfSpec c6Fs) ("size".toList) = some ("42".toList) ∧
    parseMListLine plainTranslatingCfg c6BadLine = .error .invalidFilename := by
  have h := mlist_line_parse plainTranslatingCfg c6Line c6Fs c6Last (by rfl)
  have h2 := mlist_line_parse plainTranslatingCfg c6BadLine
    ([ r"Type=dir".toList ]) ("docs".toList) (by rfl)
  exact ⟨h.1 ("docs".toList) rfl, by decide, by decide,
    h2.2.2.2 (by decide)⟩

/-! ### The listing read loops (List, MList, NameList)

`List` and `MList` loop on `bufio.ReadString('\n')` and break as soon
as the error is `io.EOF` — which is exactly when the stream ends in an
unterminated line, whose text is returned alongside `io.EOF` and then
dropped.  `NameList` drives a `bufio.Scanner` with the default
line-splitter, which does emit a final unterminated line (with a
trailing `\r` stripped). -/

/-- Repeated `bufio.ReadString('\n')`: the complete lines (delimiter
included) and the unterminated leftover returned together with EOF. -/
def goReadLinesAux (acc : List Char) : List Char → List (List Char) × List Char
  | [] => ([], acc.reverse)
  | c :: cs =>
    if c = '\n' then
      ((acc.reverse ++ [ '\n' ]) :: (goReadLinesAux [] cs).1,
       (goReadLinesAux [] cs).2)
    else goReadLinesAux (c :: acc) cs

/-- Split a data stream as the `ReadString` loop sees it. -/
def goReadLines (data : List Char) : List (List Char) × List Char :=
  goReadLinesAux [] data

/-- The `List` read loop: parse each complete line, keep the successes,
stop (discarding the leftover) at EOF. -/
def listEntriesOf (c : ConnCfg) (cy cm : Nat) (data : List Char) :
    List Entry :=
  (goReadLines data).1.filterMap (fun l => (parseListLine c cy cm l).toOption)

/-- The name `"."`. -/
def dotName : List Char := [ '.' ]

/-- The name `".."`. -/
def dotdotName : List Char := [ '.', '.' ]

/-- The `MList` read loop: parse each complete line, keep successes,
filter the dot pseudo-entries unless `ListDotDirs` is set, stop at EOF. -/
def mlistEntriesOf (c : ConnCfg) (data : List Char) : List EntryEx :=
  (goReadLines data).1.filterMap (fun l =>
    match parseMListLine c l with
    | .ok e =>
      if (e.name ≠ dotName ∧ e.name ≠ dotdotName) ∨ c.listDotDirs then some e
      else none
    | .error _ => none)

/-- `bufio.ScanLines` drops one trailing carriage return from a token. -/
def dropCR (l : List Char) : List Char :=
  if l.getLast? = some '\r' then l.dropLast else l

/-- The tokens of a `bufio.Scanner` with the line splitter: every
complete line without its delimiter, plus the final unterminated line
when the stream does not end in `\n`. -/
def scanLinesTokens (data : List Char) : List (List Char) :=
  (goReadLines data).1.map (fun l => dropCR l.dropLast) ++
    (if (goReadLines data).2 = [] then [] else [dropCR (goReadLines data).2])

/-- The `NameList` loop: every scanned token through the encoding gate. -/
def nameListEntriesOf (c : ConnCfg) (data : List Char) : List (List Char) :=
  (scanLinesTokens data).map (fromServerEncodingStr c)

/-- Reading step at a newline. -/
theorem goReadLinesAux_cons_nl (acc cs : List Char) :
    goReadLinesAux acc ('\n' :: cs) =
      ((acc.reverse ++ [ '\n' ]) :: (goReadLinesAux [] cs).1,
       (goReadLinesAux [] cs).2) := by
  simp [goReadLinesAux]

/-- Reading step at an ordinary character. -/
theorem goReadLinesAux_cons_other (acc : List Char) (c : Char)
    (cs : List Char) (h : ¬ c = '\n') :
    goReadLinesAux acc (c :: cs) = goReadLinesAux (c :: acc) cs := by
  simp [goReadLinesAux, if_neg h]

/-- A newline-free stream is one unterminated leftover. -/
theorem goReadLinesAux_noNL (p : List Char) (acc : List Char)
    (hp : '\n' ∉ p) :
    goReadLinesAux acc p = ([], acc.reverse ++ p) := by
  induction p generalizing acc with
  | nil => simp [goReadLinesAux]
  | cons c cs ih =>
    have hc : ¬ c = '\n' := fun h => hp (h ▸ List.mem_cons_self c cs)
    rw [goReadLinesAux_cons_other acc c cs hc]
    rw [ih (c :: acc) (fun h => hp (List.mem_cons_of_mem c h))]
    simp

/-- Appending to a newline-terminated stream extends the line list. -/
theorem goReadLinesAux_append_nl (data : List Char) (p : List Char)
    (acc : List Char) (hend : data.getLast? = some '\n') :
    goReadLinesAux acc (data ++ p) =
      ((goReadLinesAux acc data).1 ++ (goReadLinesAux [] p).1,
       (goReadLinesAux [] p).2) := by
  induction data generalizing acc with
  | nil => simp at hend
  | cons c cs ih =>
    rcases cs with _ | ⟨d, ds⟩
    · have hc : c = '\n' := by simpa using hend
      subst hc
      rw [show ([ '\n' ] : List Char) ++ p = '\n' :: p from rfl]
      rw [goReadLinesAux_cons_nl acc p, goReadLinesAux_cons_nl acc []]
      simp [goReadLinesAux]
    · have hlast : (d :: ds).getLast? = some '\n' := by
        simpa using hend
      by_cases hc : c = '\n'
      · subst hc
        rw [List.cons_append]
        rw [goReadLinesAux_cons_nl acc (d :: ds ++ p),
          goReadLinesAux_cons_nl acc (d :: ds)]
        rw [ih _ hlast]
        simp
      · rw [List.cons_append]
        rw [goReadLinesAux_cons_other acc c (d :: ds ++ p) hc,
          goReadLinesAux_cons_other acc c (d :: ds) hc]
        exact ih _ hlast

/-- Reading a newline-terminated stream followed by a newline-free tail:
the complete lines come from the head, the tail is the EOF leftover. -/
theorem goReadLines_partial (data p : List Char)
    (hend : data = [] ∨ data.getLast? = some '\n') (hp : '\n' ∉ p) :
    goReadLines (data ++ p) = ((goReadLines data).1, p) ∧
    (goReadLines data).2 = [] := by
  rcases hend with rfl | hend
  · refine ⟨?_, rfl⟩
    rw [List.nil_append]
    unfold goReadLines
    rw [goReadLinesAux_noNL p [] hp]
    rfl
  · constructor
    · unfold goReadLines
      rw [goReadLinesAux_append_nl data p [] hend]
      rw [goReadLinesAux_noNL p [] hp]
      simp
    · unfold goReadLines
      have h := goReadLinesAux_append_nl data [] [] hend
      rw [List.append_nil] at h
      rw [h]
      rfl

/-- C9: when a listing stream ends in an unterminated line, `List` and
`MList` silently discard that final partial line (their loops break at
EOF before parsing it), while `NameList` returns it (through the
encoding gate, with a trailing `\r` stripped) as its final entry. -/
theorem partial_line_handling (c : ConnCfg) (cy cm : Nat)
    (data p : List Char)
    (hend : data = [] ∨ data.getLast? = some '\n')
    (hp1 : p ≠ []) (hp2 : '\n' ∉ p) :
    listEntriesOf c cy cm (data ++ p) = listEntriesOf c cy cm data ∧
    mlistEntriesOf c (data ++ p) = mlistEntriesOf c data ∧
    nameListEntriesOf c (data ++ p) =
      nameListEntriesOf c data ++ [fromServerEncodingStr c (dropCR p)] := by
  obtain ⟨h1, h2⟩ := goReadLines_partial data p hend hp2
  refine ⟨?_, ?_, ?_⟩
  · unfold listEntriesOf
    rw [h1]
  · unfold mlistEntriesOf
    rw [h1]
  · unfold nameListEntriesOf scanLinesTokens
    rw [h1, h2]
    simp [hp1]

/-- A listing stream: one complete LIST line, then an unterminated one. -/
def c9Data : List Char := "-rw-r--r-- 1 user group 1024 Jan 15 10:30 a.txt\n".toList

/-- The unterminated final piece. -/
def c9P : List Char := "-rw-r--r-- 1 user group 77 Jan 16 10:31 b.txt".toList

/-- C9 witness: the theorem applied at the concrete stream. -/
theorem partial_line_handling_witness :
    listEntriesOf plainTranslatingCfg 2026 10 (c9Data ++ c9P) =
      listEntriesOf plainTranslatingCfg 2026 10 c9Data ∧
    mlistEntriesOf plainTranslatingCfg (c9Data ++ c9P) =
      mlistEntriesOf plainTranslatingCfg c9Data ∧
    nameListEntriesOf plainTranslatingCfg (c9Data ++ c9P) =
      nameListEntriesOf plainTranslatingCfg c9Data ++
        [fromServerEncodingStr plainTranslatingCfg (dropCR c9P)] :=
  partial_line_handling plainTranslatingCfg 2026 10 c9Data c9P
    (Or.inr (by decide)) (by decide) (by decide)

/-! ### The control/data connection state model

`cmdDataConnFrom`, `response.Close` and `Quit` are straight-line
effectful code over the control socket (a `textproto.Conn`) and one
data socket.  They are embedded by explicit state passing over `World`,
which scripts the outcomes of the network primitives (send results,
reply queue, socket close results) and records an event log. -/

/-- Network-layer errors: an I/O failure, the `textproto.Error` raised
for an unexpected reply code, or end of input on the reply stream. -/
inductive GoErr where
  | ioErr (n : Nat)
  | protoErr (code : Nat) (msg : List Char)
  | eof
  deriving DecidableEq

instance {e a : Type} [DecidableEq e] [DecidableEq a] :
    DecidableEq (Except e a) := fun x y =>
  match x, y with
  | .ok u, .ok v =>
    if h : u = v then isTrue (by rw [h])
    else isFalse (fun hh => h (Except.ok.inj hh))
  | .error u, .error v =>
    if h : u = v then isTrue (by rw [h])
    else isFalse (fun hh => h (Except.error.inj hh))
  | .ok _, .error _ => isFalse (fun hh => Except.noConfusion hh)
  | .error _, .ok _ => isFalse (fun hh => Except.noConfusion hh)

/-- Events on the two sockets, in execution order. -/
inductive Ev where
  | sent (cmd : List Char)
  | readReply
  | openedData
  | closedData
  | closedCtrl
  deriving DecidableEq

/-- Connection state plus the environment's scripted outcomes. -/
structure World where
  /-- Successive outcomes of `conn.Cmd` (empty queue = success). -/
  sends : List (Option GoErr)
  /-- Successive replies delivered by `ReadResponse`/`ReadCodeLine`. -/
  replies : List (Except GoErr (Nat × List Char))
  /-- Outcome of `openDataConn` (negotiation + dial, abstracted). -/
  openRes : Option GoErr
  /-- Result of closing the data socket. -/
  dataCloseErr : Option GoErr
  /-- Result of closing the control socket. -/
  ctrlCloseErr : Option GoErr
  dataOpen : Bool
  ctrlOpen : Bool
  log : List Ev
  deriving DecidableEq

/-- `c.conn.Cmd(...)`: send one command line, outcome from the script. -/
def connCmd (s : List Char) (w : World) : Option GoErr × World :=
  match w.sends with
  | [] => (none, { w with log := w.log ++ [.sent s] })
  | e :: rest => (e, { w with sends := rest, log := w.log ++ [.sent s] })

/-- `ReadResponse`/`ReadCodeLine`: pop one reply and apply textproto's
expected-code check (`expected ≤ 0` disables it; the code only passes
three-digit expected codes, for which the check is plain equality). -/
def readResponse (expected : Int) (w : World) :
    Except GoErr (Nat × List Char) × World :=
  match w.replies with
  | [] => (.error .eof, { w with log := w.log ++ [.readReply] })
  | r :: rest =>
    (match r with
     | .error e => .error e
     | .ok (code, msg) =>
       if 0 < expected ∧ (code : Int) ≠ expected then .error (.protoErr code msg)
       else .ok (code, msg),
     { w with replies := rest, log := w.log ++ [.readReply] })

/-- `conn.Close()` on the data socket. -/
def dataConnClose (w : World) : Option GoErr × World :=
  (w.dataCloseErr, { w with dataOpen := false, log := w.log ++ [.closedData] })

/-- `c.conn.Close()` on the control socket. -/
def ctrlConnClose (w : World) : Option GoErr × World :=
  (w.ctrlCloseErr, { w with ctrlOpen := false, log := w.log ++ [.closedCtrl] })

/-- `openDataConn()`: the PASV/EPSV negotiation and dial collapsed to a
scripted outcome (its reply parsing is modelled separately by
`pasvParse`); on success the data socket is open. -/
def openDataConn (w : World) : Option GoErr × World :=
  match w.openRes with
  | some e => (some e, w)
  | none => (none, { w with dataOpen := true, log := w.log ++ [.openedData] })

/-- `c.cmd(expected, ...)`: one command, one reply, code check. -/
def scCmd (expected : Int) (s : List Char) (w : World) :
    Except GoErr (Nat × List Char) × World :=
  match connCmd s w with
  | (some e, w1) => (.error e, w1)
  | (none, w1) => readResponse expected w1

/-- Modelled from the spec: the status-code constants live in a file
that is not among the sources; per RFC 959 the "requested file action
pending further information" reply (REST acknowledgment) is 350. -/
def StatusRequestFilePending : Nat := 350

/-- Modelled from the spec: RFC 959 "data connection already open" is 125. -/
def StatusAlreadyOpen : Nat := 125

/-- Modelled from the spec: RFC 959 "file status okay; about to open
data connection" is 150. -/
def StatusAboutToSend : Nat := 150

/-- Modelled from the spec: RFC 959 "closing data connection" is 226. -/
def StatusClosingDataConnection : Nat := 226

/-- `"REST %d"` formatted. -/
def restCmd (offset : Nat) : List Char := "REST ".toList ++ goItoa offset

/-- Tail of `cmdDataConnFrom` after the optional REST: send the
transfer command, read one reply line with `ReadCodeLine(-1)`, require
125 or 150; every failure on this tail closes the data connection. -/
def dataCmdFinish (cmdStr : List Char) (w : World) :
    Except GoErr Unit × World :=
  match connCmd cmdStr w with
  | (some e, w1) => (.error e, (dataConnClose w1).2)
  | (none, w1) =>
    match readResponse (-1) w1 with
    | (.error e, w2) => (.error e, (dataConnClose w2).2)
    | (.ok (code, msg), w2) =>
      if code ≠ StatusAlreadyOpen ∧ code ≠ StatusAboutToSend then
        (.error (.protoErr code msg), (dataConnClose w2).2)
      else (.ok (), w2)

/-- `cmdDataConnFrom(offset, format, args...)`: open the data
connection; when `offset ≠ 0` require a REST acknowledgment — on a REST
failure the error is returned WITHOUT closing the data connection
(mirroring the code); then run the command/reply tail. -/
def cmdDataConnFrom (offset : Nat) (cmdStr : List Char) (w : World) :
    Except GoErr Unit × World :=
  match openDataConn w with
  | (some e, w1) => (.error e, w1)
  | (none, w1) =>
    if offset ≠ 0 then
      match scCmd (Int.ofNat StatusRequestFilePending) (restCmd offset) w1 with
      | (.error e, w2) => (.error e, w2)
      | (.ok _, w2) => dataCmdFinish cmdStr w2
    else dataCmdFinish cmdStr w1

/-- The transfer command used in the concrete runs. -/
def retrCmdStr : List Char := "RETR file.txt".toList

/-- The message of the scripted REST rejection. -/
def c1Msg : List Char := "rejected".toList

/-- A world in which opening the data connection succeeds and the
server rejects REST with code 500. -/
def c1RestErrWorld : World :=
  { sends := [none, none], replies := [.ok (500, c1Msg)],
    openRes := none, dataCloseErr := none, ctrlCloseErr := none,
    dataOpen := false, ctrlOpen := true, log := [] }

/-- A world in which REST is acknowledged (350) but the transfer
command's reply carries the unexpected code 500. -/
def c1BadCodeWorld : World :=
  { sends := [none, none], replies := [.ok (350, []), .ok (500, c1Msg)],
    openRes := none, dataCloseErr := none, ctrlCloseErr := none,
    dataOpen := false, ctrlOpen := true, log := [] }

/-- C1: evaluation of `cmdDataConnFrom` with nonzero offset at a
scripted REST rejection: the error is returned while the just-opened
data connection is still open and no close event was logged — the
socket leaks, contradicting the spec; on the same run with REST
acknowledged, a bad reply to the transfer command does close the data
connection, showing the REST branch is the odd one out. -/
theorem rest_rejection_leaks_conn :
    (cmdDataConnFrom 1 retrCmdStr c1RestErrWorld).1 =
      .error (.protoErr 500 c1Msg) ∧
    (cmdDataConnFrom 1 retrCmdStr c1RestErrWorld).2.dataOpen = true ∧
    Ev.closedData ∉ (cmdDataConnFrom 1 retrCmdStr c1RestErrWorld).2.log ∧
    (cmdDataConnFrom 1 retrCmdStr c1BadCodeWorld).1 =
      .error (.protoErr 500 c1Msg) ∧
    (cmdDataConnFrom 1 retrCmdStr c1BadCodeWorld).2.dataOpen = false := by
  decide

/-- `response.Close`: close the data socket first, then read the
closing-data-connection reply; a reply error replaces the close error. -/
def responseClose (w : World) : Option GoErr × World :=
  match dataConnClose w with
  | (err, w1) =>
    match readResponse (Int.ofNat StatusClosingDataConnection) w1 with
    | (r2, w2) =>
      (match r2 with
       | .error e2 => some e2
       | .ok _ => err, w2)

/-- C5: `response.Close` always closes the data socket first and then
reads exactly one control reply (the event log and reply queue say so);
a reply that is an I/O error or carries a code other than 226 is
returned as the close error even when the socket close itself
succeeded; with a clean 226 reply the socket's own close result is
returned. -/
theorem response_close_spec (w : World) :
    (responseClose w).2.dataOpen = false ∧
    (responseClose w).2.log = w.log ++ [.closedData, .readReply] ∧
    (responseClose w).2.replies = w.replies.drop 1 ∧
    (∀ code msg rest, w.replies = .ok (code, msg) :: rest →
      code ≠ StatusClosingDataConnection →
      (responseClose w).1 = some (.protoErr code msg)) ∧
    (∀ e rest, w.replies = .error e :: rest → (responseClose w).1 = some e) ∧
    (∀ msg rest,
      w.replies = .ok (StatusClosingDataConnection, msg) :: rest →
      (responseClose w).1 = w.dataCloseErr) := by
  obtain ⟨sends, replies, openRes, dcErr, ccErr, dOpen, cOpen, lg⟩ := w
  rcases replies with _ | ⟨r, rest⟩
  · refine ⟨?_, ?_, ?_, ?_, ?_, ?_⟩ <;>
      simp [responseClose, dataConnClose, readResponse]
  · rcases r with e | ⟨code, msg⟩
    · refine ⟨?_, ?_, ?_, ?_, ?_, ?_⟩ <;>
        simp [responseClose, dataConnClose, readResponse]
    · by_cases hc : code = StatusClosingDataConnection
      · subst hc
        refine ⟨?_, ?_, ?_, ?_, ?_, ?_⟩ <;>
          simp [responseClose, dataConnClose, readResponse,
            StatusClosingDataConnection]
      · have hci : ((code : Int) ≠ (226 : Int)) := by
          simp only [StatusClosingDataConnection] at hc
          exact_mod_cast hc
        refine ⟨by simp [responseClose, dataConnClose, readResponse],
          by simp [responseClose, dataConnClose, readResponse],
          by simp [responseClose, dataConnClose, readResponse], ?_, ?_, ?_⟩
        · intro code' msg' rest' heq hne
          injection heq with h1 h2
          injection h1 with h3
          injection h3 with hcode hmsg
          subst hcode
          subst hmsg
          simp [responseClose, dataConnClose, readResponse,
            StatusClosingDataConnection, hci]
        · intro e rest' heq
          simp at heq
        · intro msg' rest' heq
          injection heq with h1 h2
          injection h1 with h3
          injection h3 with hcode hmsg
          exact absurd hcode hc

/-- The message of the scripted bad closing reply. -/
def c5Msg : List Char := "transfer failed".toList

/-- A world whose data socket closes cleanly but whose pending control
reply carries code 550 instead of 226. -/
def c5World : World :=
  { sends := [], replies := [.ok (550, c5Msg)],
    openRes := none, dataCloseErr := none, ctrlCloseErr := none,
    dataOpen := true, ctrlOpen := true, log := [] }

/-- C5 witness: the theorem applied at `c5World`: although the socket
closed cleanly, `Close` returns the reply error, after closing the
socket first and reading exactly one reply. -/
theorem response_close_spec_witness :
    (responseClose c5World).1 = some (.protoErr 550 c5Msg) ∧
    (responseClose c5World).2.log = [.closedData, .readReply] :=
  ⟨(response_close_spec c5World).2.2.2.1 550 c5Msg [] rfl (by decide),
   by simpa using (response_close_spec c5World).2.1⟩

/-- The QUIT command line. -/
def quitCmdStr : List Char := "QUIT".toList

/-- `Quit`: send QUIT (outcome discarded), then close the control
socket and return that close's result. -/
def quit (w : World) : Option GoErr × World :=
  match connCmd quitCmdStr w with
  | (_, w1) => ctrlConnClose w1

/-- C10: for every world — whatever the QUIT send outcome and whatever
replies the server has pending — `Quit` returns exactly the control
socket's close result, closes the control socket, logs only the QUIT
send followed by the close (no reply read), and leaves the reply queue
untouched, so neither a send failure nor an error reply ever reaches
the caller. -/
theorem quit_spec (w : World) :
    (quit w).1 = w.ctrlCloseErr ∧
    (quit w).2.ctrlOpen = false ∧
    (quit w).2.log = w.log ++ [.sent quitCmdStr, .closedCtrl] ∧
    (quit w).2.replies = w.replies := by
  obtain ⟨sends, replies, openRes, dcErr, ccErr, dOpen, cOpen, lg⟩ := w
  rcases sends with _ | ⟨e, rest⟩ <;>
    simp [quit, ctrlConnClose, connCmd]

end Goftp
